import Mathlib

/-!
Verification of the adaptive per-client rate limiter middleware
(`internal/middleware/rate_limit.go`).

The middleware's own logic (policy resolution, client registry, admission
check, stats, clear-all) is embedded directly from the Go source.  The
token-bucket limiter comes from the external library `golang.org/x/time/rate`
(not part of this repository's sources); it is modelled from the spec's
token-bucket semantics (spec sections 4.3 and the glossary), with time and
token counts as exact rationals.
-/

namespace RateLimit

/-- Go's `int(x)` conversion on a nonnegative/negative rational: truncation
toward zero. -/
def ratTrunc (q : ℚ) : ℤ := if q < 0 then -(⌊-q⌋) else ⌊q⌋

/-- A rate-limit policy: refill rate (tokens per second) and burst capacity.
Embeds `RateLimitConfig` from `rate_limit.go`. -/
structure RateLimitConfig where
  rate : ℚ
  burst : ℕ
deriving DecidableEq

/-- The static policy table set up in `NewRateLimiter` (rate_limit.go lines
46-53).  `rate.Every(20*time.Second)` is the limit `1/20`.  A name not in the
table yields Go's zero value for the map lookup. -/
def defaultConfigs : String → RateLimitConfig
  | "default" => ⟨50, 100⟩
  | "auth" => ⟨1/20, 5⟩
  | "public" => ⟨10, 100⟩
  | "admin" => ⟨5, 50⟩
  | "product_read" => ⟨20, 200⟩
  | "product_write" => ⟨1, 20⟩
  | _ => ⟨0, 0⟩

/-- `strings.TrimSuffix(path, "/")`: remove one trailing `/` if present.
Expressed on the character list of the string. -/
def trimSuffixSlash (s : String) : String :=
  if s.data.getLast? = some '/' then ⟨s.data.dropLast⟩ else s

/-- Embeds `getConfigForEndpoint` (rate_limit.go lines 86-102). -/
def getConfigForEndpoint (configs : String → RateLimitConfig) (path : String) :
    RateLimitConfig :=
  let cleanPath := trimSuffixSlash path
  if cleanPath = "/api/v1/auth/login" ∨ cleanPath = "/api/v1/auth/register" then
    configs "auth"
  else if cleanPath = "/api/v1/admin/users" then
    configs "admin"
  else if cleanPath = "/api/v1/products" ∨ cleanPath = "/api/v1/status" then
    configs "public"
  else
    configs "default"

/-- The full policy resolution performed by `RateLimitMiddleware`
(rate_limit.go lines 117-125): the path-based config, overridden for the
exact path `/api/v1/products` by HTTP method. -/
def resolveConfig (configs : String → RateLimitConfig) (method path : String) :
    RateLimitConfig :=
  let config := getConfigForEndpoint configs path
  if path = "/api/v1/products" then
    if method = "POST" ∨ method = "PUT" ∨ method = "DELETE" then
      configs "product_write"
    else
      configs "product_read"
  else config

/-- Modelled from the spec: the token-bucket limiter state of
`golang.org/x/time/rate.Limiter` (an external dependency, not in this
repository's sources).  Spec section 4.3.4 and the glossary: tokens accumulate
continuously at `limit` tokens/second up to `burst` capacity; time and tokens
are exact rationals.  `last` is the time of the last state update, `lastEvent`
the time of the latest rate-limited event (used when cancelling a
reservation). -/
structure Limiter where
  limit : ℚ
  burst : ℕ
  tokens : ℚ
  last : ℚ
  lastEvent : ℚ
deriving DecidableEq

/-- Modelled from the spec: a fresh limiter seeded with a policy's rate and
burst starts with a full bucket ("first-ever request: full burst
available"). -/
def newLimiter (r : ℚ) (b : ℕ) (t : ℚ) : Limiter :=
  ⟨r, b, (b : ℚ), t, t⟩

/-- Modelled from the spec: the number of tokens available at time `t`,
accumulating at `limit` per second since `last`, capped at `burst` (tokens may
be negative after a pending reservation; elapsed time below `last` counts as
zero). -/
def Limiter.tokensAt (l : Limiter) (t : ℚ) : ℚ :=
  min (l.burst : ℚ) (l.tokens + l.limit * max 0 (t - l.last))

/-- Modelled from the spec: consuming one token (`Limiter.Allow`) succeeds iff
at least one token is available at `t`, decrementing the count; it fails
otherwise without any side effect on the limiter. -/
def Limiter.allow (l : Limiter) (t : ℚ) : Bool × Limiter :=
  let avail := l.tokensAt t
  if 1 ≤ avail then
    (true, { l with tokens := avail - 1, last := t, lastEvent := t })
  else
    (false, l)

/-- Modelled from the spec: a reservation of one token — whether it was
granted, how many tokens it holds, and the time at which the reserved token
becomes available (`timeToAct`). -/
structure Reservation where
  ok : Bool
  tokens : ℚ
  timeToAct : ℚ
deriving DecidableEq

/-- Modelled from the spec: the wait until the token reserved at time `t`
becomes available — the time for the (post-reservation) token count to climb
back to zero, or zero if a token is already available. -/
def Limiter.waitAt (l : Limiter) (t : ℚ) : ℚ :=
  if l.tokensAt t - 1 < 0 then -(l.tokensAt t - 1) / l.limit else 0

/-- Modelled from the spec: `Limiter.Reserve` at time `t` reserves the *next*
token (granted whenever one token fits in the burst), taking the token count
negative if necessary; the reservation acts at `t` plus the wait. -/
def Limiter.reserve (l : Limiter) (t : ℚ) : Reservation × Limiter :=
  let wait := l.waitAt t
  if 1 ≤ l.burst then
    (⟨true, 1, t + wait⟩,
     { l with tokens := l.tokensAt t - 1, last := t, lastEvent := t + wait })
  else
    (⟨false, 0, t⟩, l)

/-- Modelled from the spec: `Reservation.Delay` relative to time `t` — how
long until the reserved token becomes available (zero if already
available). -/
def Reservation.delayFrom (r : Reservation) (t : ℚ) : ℚ :=
  max 0 (r.timeToAct - t)

/-- Modelled from the spec: `Reservation.CancelAt t` returns the reservation's
token to the bucket, provided the reservation was granted, still holds a
token, and its act time has not already passed; the restored count is capped
at `burst`, and the latest-event time is rolled back when this reservation was
the latest event. -/
def Reservation.cancelAt (r : Reservation) (l : Limiter) (t : ℚ) : Limiter :=
  if r.ok = false then l
  else if r.tokens = 0 ∨ r.timeToAct < t then l
  else
    let restore := r.tokens - l.limit * (l.lastEvent - r.timeToAct)
    if restore ≤ 0 then l
    else
      let tok := min (l.burst : ℚ) (l.tokensAt t + restore)
      let le :=
        if r.timeToAct = l.lastEvent then
          let prevEvent := r.timeToAct - r.tokens / l.limit
          if t ≤ prevEvent then prevEvent else l.lastEvent
        else l.lastEvent
      { l with tokens := tok, last := t, lastEvent := le }

/-- The per-request data the surrounding HTTP framework supplies to the
middleware: method, URL path, client source IP, and the user identifier
string (`c.GetString("user_id")`, empty when absent). -/
structure Request where
  method : String
  path : String
  ip : String
  userID : String
deriving DecidableEq

/-- Embeds `getClientKey` (rate_limit.go lines 104-112):
`fmt.Sprintf("%s:%s", ip, userID)` when a user id is present, bare IP
otherwise. -/
def getClientKey (req : Request) : String :=
  if req.userID ≠ "" then req.ip ++ ":" ++ req.userID else req.ip

/-- Embeds `ClientInfo` (rate_limit.go lines 15-20). -/
structure ClientInfo where
  limiter : Limiter
  lastSeen : ℚ
  userID : String
  requestCount : ℤ
deriving DecidableEq

/-- The client registry `map[string]*ClientInfo`, as an association list
(first binding for a key wins; from an empty registry keys stay distinct). -/
def lookupClient : List (String × ClientInfo) → String → Option ClientInfo
  | [], _ => none
  | (k', c') :: rest, k => if k' = k then some c' else lookupClient rest k

/-- Go map store: replace the binding if the key is present, append it
otherwise. -/
def setClient : List (String × ClientInfo) → String → ClientInfo →
    List (String × ClientInfo)
  | [], k, c => [(k, c)]
  | (k', c') :: rest, k, c =>
      if k' = k then (k, c) :: rest else (k', c') :: setClient rest k c

/-- The `RateLimiter` state: the client registry and the policy table.  The
lock, cleanup ticker and context are concurrency plumbing with no effect on
the sequential state. -/
structure RLState where
  clients : List (String × ClientInfo)
  configs : String → RateLimitConfig

/-- Embeds `NewRateLimiter` (rate_limit.go lines 36-58): empty registry and
the static policy table. -/
def newRateLimiter : RLState :=
  ⟨[], defaultConfigs⟩

/-- Embeds the find-or-create / replace-on-mismatch / bookkeeping phase of
`RateLimitMiddleware` (rate_limit.go lines 129-146): look up the client; if
absent create it with a fresh limiter seeded from the resolved config and the
request's user id; if present and the limiter's rate or burst differ from the
resolved config's, replace the limiter with a fresh one; then set
`lastSeen = t` and increment `requestCount`. -/
def updateClient (clients : List (String × ClientInfo)) (key uid : String)
    (config : RateLimitConfig) (t : ℚ) : ClientInfo :=
  let c : ClientInfo :=
    match lookupClient clients key with
    | none => ⟨newLimiter config.rate config.burst t, t, uid, 0⟩
    | some client =>
        if client.limiter.limit ≠ config.rate ∨ client.limiter.burst ≠ config.burst then
          { client with limiter := newLimiter config.rate config.burst t }
        else client
  { c with lastSeen := t, requestCount := c.requestCount + 1 }

/-- The outcome of one admission check: the verdict and the response fields
the middleware emits (rate_limit.go lines 148-188).  Header values are kept
as exact numbers rather than formatted strings; `retryAfterField` is the
numeric `retry_after` of the 429 JSON body, `int(retry.Seconds())`. -/
structure CheckResult where
  allowed : Bool
  limitHeader : ℚ
  burstHeader : ℕ
  remainingHeader : String
  retryAfter : Option ℚ
  retryAfterField : Option ℤ
  resetHeader : Option ℚ
  status : Option ℕ
deriving DecidableEq

/-- Embeds one run of the `RateLimitMiddleware` handler (rate_limit.go lines
114-189) at a single instant `t`: resolve the policy, find-or-create/refresh
the client entry, attempt to consume one token; on failure reserve the next
token to compute a retry hint, cancel the reservation, floor the hint to one
second when nonpositive, and answer 429; on success reserve-and-cancel to
compute a reset hint after releasing the lock. -/
def checkStep (s : RLState) (req : Request) (t : ℚ) : RLState × CheckResult :=
  let key := getClientKey req
  let config := resolveConfig s.configs req.method req.path
  let c := updateClient s.clients key req.userID config t
  let a := c.limiter.allow t
  if a.1 = false then
    let rl := a.2.reserve t
    let retry0 := rl.1.delayFrom t
    let lim3 := rl.1.cancelAt rl.2 t
    let retry := if retry0 ≤ 0 then 1 else retry0
    (⟨setClient s.clients key { c with limiter := lim3 }, s.configs⟩,
     ⟨false, config.rate, config.burst, "0", some retry, some (ratTrunc retry),
      none, some 429⟩)
  else
    let rl := a.2.reserve t
    let delay := rl.1.delayFrom t
    let lim3 := rl.1.cancelAt rl.2 t
    (⟨setClient s.clients key { c with limiter := lim3 }, s.configs⟩,
     ⟨true, config.rate, config.burst, "-", none, none,
      some (if 0 < delay then delay else 0), none⟩)

/-- Run a sequence of (request, timestamp) admission checks. -/
def runTrace (s : RLState) : List (Request × ℚ) → RLState
  | [] => s
  | (req, t) :: rest => runTrace (checkStep s req t).1 rest

/-- The verdicts of `n` admission checks of the same request at the same
instant. -/
def runVerdicts (s : RLState) (req : Request) (t : ℚ) : ℕ → List Bool
  | 0 => []
  | n + 1 =>
      let p := checkStep s req t
      p.2.allowed :: runVerdicts p.1 req t n

/-- The per-client view exposed by `GetStats` (rate_limit.go lines 201-207):
`last_seen`, `request_count`, `user_id` (the token count is not exposed). -/
structure ClientStats where
  lastSeen : ℚ
  requestCount : ℤ
  userID : String
deriving DecidableEq

/-- Embeds `GetStats` (rate_limit.go lines 192-211): total client count and
the per-client views. -/
def getStats (s : RLState) : ℕ × List (String × ClientStats) :=
  (s.clients.length,
   s.clients.map fun kc => (kc.1, ⟨kc.2.lastSeen, kc.2.requestCount, kc.2.userID⟩))

/-- Embeds `ClearAllClients` (rate_limit.go lines 213-217): discard the whole
registry; the policy table is untouched. -/
def clearAllClients (s : RLState) : RLState :=
  ⟨[], s.configs⟩

/-- The lock- and limiter-touching events of one middleware run, in program
order. -/
inductive LimEvent
  | lock
  | unlock
  | allowOp
  | reserveOp
  | delayOp
  | cancelOp
deriving DecidableEq

/-- The event order of one run of `RateLimitMiddleware` (rate_limit.go lines
127-188): the lock is taken, the limiter consume is attempted; on the deny
path the retry-hint reservation, delay read and cancellation happen before
the unlock (lines 148-153); on the allow path the unlock (line 173) precedes
the reset-hint reservation, delay read and cancellation (lines 175-177). -/
def checkEvents (s : RLState) (req : Request) (t : ℚ) : List LimEvent :=
  let key := getClientKey req
  let config := resolveConfig s.configs req.method req.path
  let c := updateClient s.clients key req.userID config t
  let a := c.limiter.allow t
  if a.1 = false then
    [.lock, .allowOp, .reserveOp, .delayOp, .cancelOp, .unlock]
  else
    [.lock, .allowOp, .unlock, .reserveOp, .delayOp, .cancelOp]

/-- The composite effect of one admission check on the client's limiter: the
consume attempt followed by the reserve/delay/cancel hint computation, all at
instant `t` (both branches of `checkStep` apply exactly this). -/
def afterCheck (l : Limiter) (t : ℚ) : Limiter :=
  let a := l.allow t
  let rl := a.2.reserve t
  rl.1.cancelAt rl.2 t

/-- A concrete login request from a bare IP (hits the `auth` policy). -/
def reqAuth : Request := ⟨"POST", "/api/v1/auth/login", "1.2.3.4", ""⟩

/-- A concrete product-creation request from a bare IP (hits the
`product_write` policy). -/
def reqPW : Request := ⟨"POST", "/api/v1/products", "1.2.3.4", ""⟩

/-- A concrete request from a bare IP to an unmatched path (hits the
`default` policy). -/
def req9 : Request := ⟨"GET", "/api/v1/other", "9.9.9.9", ""⟩

/-- A registry state whose single client has an exhausted `default`-policy
bucket at time `0`. -/
def st9 : RLState :=
  ⟨[("9.9.9.9", ⟨⟨50, 100, 0, 0, 0⟩, 0, "", 1⟩)], defaultConfigs⟩

/-- A registry state whose single client carries a limiter whose rate/burst
do not match any policy of the static table. -/
def st5 : RLState :=
  ⟨[("9.9.9.9", ⟨⟨7, 9, 3, 0, 0⟩, 0, "", 1⟩)], defaultConfigs⟩

end RateLimit

namespace RateLimit

/-- Every resolved policy is one of the six named policies of the static
table. -/
lemma resolveConfig_cases (m p : String) :
    resolveConfig defaultConfigs m p = defaultConfigs "auth" ∨
    resolveConfig defaultConfigs m p = defaultConfigs "admin" ∨
    resolveConfig defaultConfigs m p = defaultConfigs "public" ∨
    resolveConfig defaultConfigs m p = defaultConfigs "default" ∨
    resolveConfig defaultConfigs m p = defaultConfigs "product_write" ∨
    resolveConfig defaultConfigs m p = defaultConfigs "product_read" := by
  simp only [resolveConfig, getConfigForEndpoint]
  split_ifs <;> tauto

/-- Every resolved policy has a strictly positive refill rate. -/
lemma resolveConfig_rate_pos (m p : String) :
    0 < (resolveConfig defaultConfigs m p).rate := by
  rcases resolveConfig_cases m p with h | h | h | h | h | h <;>
    rw [h] <;> norm_num [defaultConfigs]

/-- Every resolved policy has burst capacity at least one. -/
lemma resolveConfig_burst_pos (m p : String) :
    1 ≤ (resolveConfig defaultConfigs m p).burst := by
  rcases resolveConfig_cases m p with h | h | h | h | h | h <;>
    rw [h] <;> norm_num [defaultConfigs]

lemma lookupClient_set_self (l : List (String × ClientInfo)) (k : String)
    (c : ClientInfo) : lookupClient (setClient l k c) k = some c := by
  induction l with
  | nil => simp [setClient, lookupClient]
  | cons kc rest ih =>
      by_cases h : kc.1 = k
      · simp [setClient, lookupClient, h]
      · simp [setClient, lookupClient, h, ih]

lemma lookupClient_set_ne (l : List (String × ClientInfo)) (k k' : String)
    (c : ClientInfo) (h : k' ≠ k) :
    lookupClient (setClient l k c) k' = lookupClient l k' := by
  induction l with
  | nil => simp [setClient, lookupClient, Ne.symm h]
  | cons kc rest ih =>
      by_cases hk : kc.1 = k
      · subst hk
        simp [setClient, lookupClient, Ne.symm h]
      · simp [setClient, hk, lookupClient, ih]

lemma setClient_length_of_some (l : List (String × ClientInfo)) (k : String)
    (c : ClientInfo) (h : (lookupClient l k).isSome) :
    (setClient l k c).length = l.length := by
  induction l with
  | nil => simp [lookupClient] at h
  | cons kc rest ih =>
      by_cases hk : kc.1 = k
      · simp [setClient, hk]
      · simp only [lookupClient, hk, if_false] at h
        simp [setClient, hk, ih h]

lemma setClient_length_of_none (l : List (String × ClientInfo)) (k : String)
    (c : ClientInfo) (h : lookupClient l k = none) :
    (setClient l k c).length = l.length + 1 := by
  induction l with
  | nil => simp [setClient]
  | cons kc rest ih =>
      by_cases hk : kc.1 = k
      · simp [lookupClient, hk] at h
      · simp only [lookupClient, hk, if_false] at h
        simp [setClient, hk, ih h]

lemma tokensAt_le_burst (l : Limiter) (t : ℚ) : l.tokensAt t ≤ (l.burst : ℚ) :=
  min_le_left _ _

lemma tokensAt_last_eq (r : ℚ) (B : ℕ) (tok le t : ℚ) (h : tok ≤ (B : ℚ)) :
    Limiter.tokensAt ⟨r, B, tok, t, le⟩ t = tok := by
  simp [Limiter.tokensAt, min_eq_right h]

lemma waitAt_nonneg (l : Limiter) (t : ℚ) (hpos : 0 < l.limit) :
    0 ≤ l.waitAt t := by
  unfold Limiter.waitAt
  split_ifs with h
  · apply div_nonneg <;> linarith
  · exact le_refl 0

lemma reserve_of_burst_pos (l : Limiter) (t : ℚ) (hb : 1 ≤ l.burst) :
    l.reserve t =
      (⟨true, 1, t + l.waitAt t⟩,
       { l with tokens := l.tokensAt t - 1, last := t, lastEvent := t + l.waitAt t }) := by
  simp [Limiter.reserve, hb]

/-- Cancelling, at the same instant, a reservation just made restores the
token and leaves rate and burst alone. -/
lemma cancelAt_fresh_spec (r : ℚ) (B : ℕ) (tok W t : ℚ) (hW : 0 ≤ W) :
    Reservation.cancelAt ⟨true, 1, t + W⟩ ⟨r, B, tok, t, t + W⟩ t =
      { limit := r, burst := B, tokens := min (B : ℚ) (min (B : ℚ) tok + 1),
        last := t,
        lastEvent := if t ≤ t + W - 1 / r then t + W - 1 / r else t + W } := by
  have hcond : ¬((1 : ℚ) = 0 ∨ t + W < t) := by
    push_neg
    exact ⟨one_ne_zero, by linarith⟩
  have hrestore : (1 : ℚ) - r * (t + W - (t + W)) = 1 := by ring
  simp only [Reservation.cancelAt, hrestore]
  rw [if_neg (by simp), if_neg hcond, if_neg (by norm_num)]
  simp [Limiter.tokensAt]

/-- The reserve-then-cancel round trip at a single instant preserves the
limiter's rate and burst and, when the stored tokens do not exceed the burst,
the available tokens. -/
lemma reserveCancel_spec (l : Limiter) (t : ℚ) (hpos : 0 < l.limit) :
    ((l.reserve t).1.cancelAt (l.reserve t).2 t).limit = l.limit ∧
    ((l.reserve t).1.cancelAt (l.reserve t).2 t).burst = l.burst ∧
    ((l.reserve t).1.cancelAt (l.reserve t).2 t).tokensAt t = l.tokensAt t := by
  by_cases hb : 1 ≤ l.burst
  · have hA : l.tokensAt t ≤ (l.burst : ℚ) := tokensAt_le_burst l t
    rw [reserve_of_burst_pos l t hb]
    have hfresh := cancelAt_fresh_spec l.limit l.burst (l.tokensAt t - 1)
      (l.waitAt t) t (waitAt_nonneg l t hpos)
    have hrec :
        ({ l with
            tokens := l.tokensAt t - 1, last := t,
            lastEvent := t + l.waitAt t } : Limiter) =
          ⟨l.limit, l.burst, l.tokensAt t - 1, t, t + l.waitAt t⟩ := rfl
    rw [hrec, hfresh]
    refine ⟨rfl, rfl, ?_⟩
    have h1 : min ((l.burst : ℚ)) (l.tokensAt t - 1) = l.tokensAt t - 1 :=
      min_eq_right (by linarith)
    have h2 : min ((l.burst : ℚ)) (l.tokensAt t - 1 + 1) = l.tokensAt t := by
      rw [sub_add_cancel]
      exact min_eq_right hA
    rw [tokensAt_last_eq _ _ _ _ _ (by rw [h1, h2]; exact hA), h1, h2]
  · have hres : l.reserve t = (⟨false, 0, t⟩, l) := by
      simp [Limiter.reserve, hb]
    rw [hres]
    simp [Reservation.cancelAt]

lemma tokensAt_eq_tokens (l : Limiter) (t : ℚ) (hlast : l.last = t)
    (h : l.tokens ≤ (l.burst : ℚ)) : l.tokensAt t = l.tokens := by
  simp [Limiter.tokensAt, hlast, min_eq_right h]

lemma allow_of_le (l : Limiter) (t : ℚ) (h : 1 ≤ l.tokensAt t) :
    l.allow t =
      (true, { l with tokens := l.tokensAt t - 1, last := t, lastEvent := t }) := by
  simp [Limiter.allow, h]

lemma allow_of_lt (l : Limiter) (t : ℚ) (h : ¬1 ≤ l.tokensAt t) :
    l.allow t = (false, l) := by
  simp [Limiter.allow, h]

/-- The net effect of one admission check on the limiter at instant `t`:
rate and burst are unchanged, and the available tokens drop by one exactly
when the consume succeeded. -/
lemma afterCheck_spec (l : Limiter) (t : ℚ) (hpos : 0 < l.limit) :
    (afterCheck l t).limit = l.limit ∧ (afterCheck l t).burst = l.burst ∧
    (afterCheck l t).tokensAt t =
      l.tokensAt t - (if 1 ≤ l.tokensAt t then 1 else 0) := by
  by_cases h : 1 ≤ l.tokensAt t
  · have hA : l.tokensAt t ≤ (l.burst : ℚ) := tokensAt_le_burst l t
    have hle : l.tokensAt t - 1 ≤ (l.burst : ℚ) := by linarith
    have ha : afterCheck l t =
        (Limiter.reserve ⟨l.limit, l.burst, l.tokensAt t - 1, t, t⟩ t).1.cancelAt
          (Limiter.reserve ⟨l.limit, l.burst, l.tokensAt t - 1, t, t⟩ t).2 t := by
      unfold afterCheck
      rw [allow_of_le l t h]
    have hc := reserveCancel_spec ⟨l.limit, l.burst, l.tokensAt t - 1, t, t⟩ t hpos
    have htok : Limiter.tokensAt ⟨l.limit, l.burst, l.tokensAt t - 1, t, t⟩ t =
        l.tokensAt t - 1 := tokensAt_eq_tokens _ t rfl hle
    rw [ha, if_pos h]
    exact ⟨hc.1, hc.2.1, by rw [hc.2.2, htok]⟩
  · have ha : afterCheck l t =
        ((l.reserve t).1.cancelAt (l.reserve t).2 t) := by
      unfold afterCheck
      rw [allow_of_lt l t h]
    have hc := reserveCancel_spec l t hpos
    rw [ha, if_neg h, sub_zero]
    exact hc

lemma updateClient_of_none (cl : List (String × ClientInfo)) (key uid : String)
    (cfg : RateLimitConfig) (t : ℚ) (h : lookupClient cl key = none) :
    updateClient cl key uid cfg t = ⟨newLimiter cfg.rate cfg.burst t, t, uid, 1⟩ := by
  simp [updateClient, h]

lemma updateClient_of_keep (cl : List (String × ClientInfo)) (key uid : String)
    (cfg : RateLimitConfig) (t : ℚ) (e : ClientInfo)
    (h : lookupClient cl key = some e) (hr : e.limiter.limit = cfg.rate)
    (hb : e.limiter.burst = cfg.burst) :
    updateClient cl key uid cfg t =
      { e with lastSeen := t, requestCount := e.requestCount + 1 } := by
  simp [updateClient, h, hr, hb]

lemma updateClient_of_replace (cl : List (String × ClientInfo)) (key uid : String)
    (cfg : RateLimitConfig) (t : ℚ) (e : ClientInfo)
    (h : lookupClient cl key = some e)
    (hne : e.limiter.limit ≠ cfg.rate ∨ e.limiter.burst ≠ cfg.burst) :
    updateClient cl key uid cfg t =
      { e with limiter := newLimiter cfg.rate cfg.burst t, lastSeen := t,
               requestCount := e.requestCount + 1 } := by
  simp only [updateClient, h]
  rw [if_pos hne]

/-- After the find-or-create/replace phase the client's limiter always carries
exactly the resolved config's rate and burst. -/
lemma updateClient_limit_burst (cl : List (String × ClientInfo)) (key uid : String)
    (cfg : RateLimitConfig) (t : ℚ) :
    (updateClient cl key uid cfg t).limiter.limit = cfg.rate ∧
    (updateClient cl key uid cfg t).limiter.burst = cfg.burst := by
  cases h : lookupClient cl key with
  | none => simp [updateClient, h, newLimiter]
  | some e =>
      by_cases hc : e.limiter.limit ≠ cfg.rate ∨ e.limiter.burst ≠ cfg.burst
      · simp only [updateClient, h]
        rw [if_pos hc]
        simp [newLimiter]
      · simp only [updateClient, h]
        rw [if_neg hc]
        push_neg at hc
        exact ⟨hc.1, hc.2⟩

lemma updateClient_lastSeen (cl : List (String × ClientInfo)) (key uid : String)
    (cfg : RateLimitConfig) (t : ℚ) :
    (updateClient cl key uid cfg t).lastSeen = t := rfl

lemma updateClient_userID (cl : List (String × ClientInfo)) (key uid : String)
    (cfg : RateLimitConfig) (t : ℚ) :
    (updateClient cl key uid cfg t).userID =
      (match lookupClient cl key with
       | none => uid
       | some e => e.userID) := by
  cases h : lookupClient cl key with
  | none => simp [updateClient, h]
  | some e =>
      simp only [updateClient, h]
      split <;> rfl

lemma updateClient_requestCount (cl : List (String × ClientInfo)) (key uid : String)
    (cfg : RateLimitConfig) (t : ℚ) :
    (updateClient cl key uid cfg t).requestCount =
      (match lookupClient cl key with
       | none => 0
       | some e => e.requestCount) + 1 := by
  cases h : lookupClient cl key with
  | none => simp [updateClient, h]
  | some e =>
      simp only [updateClient, h]
      split <;> rfl

/-- The state component of one middleware run: the registry binds the client
key to the updated entry whose limiter went through the full
consume/reserve/cancel sequence. -/
lemma checkStep_fst (s : RLState) (req : Request) (t : ℚ) :
    (checkStep s req t).1 =
      ⟨setClient s.clients (getClientKey req)
        { updateClient s.clients (getClientKey req) req.userID
            (resolveConfig s.configs req.method req.path) t with
          limiter := afterCheck
            (updateClient s.clients (getClientKey req) req.userID
              (resolveConfig s.configs req.method req.path) t).limiter t },
       s.configs⟩ := by
  unfold checkStep afterCheck
  dsimp only
  split <;> rfl

lemma checkStep_allowed (s : RLState) (req : Request) (t : ℚ) :
    (checkStep s req t).2.allowed =
      ((updateClient s.clients (getClientKey req) req.userID
        (resolveConfig s.configs req.method req.path) t).limiter.allow t).1 := by
  unfold checkStep
  dsimp only
  split
  next h => exact h.symm
  next h =>
    simp only [Bool.not_eq_false] at h
    exact h.symm

lemma allow_fst (l : Limiter) (t : ℚ) :
    (l.allow t).1 = decide (1 ≤ l.tokensAt t) := by
  unfold Limiter.allow
  dsimp only
  split_ifs with h <;> simp [h]

lemma ratTrunc_nonneg (q : ℚ) (h : 0 ≤ q) : 0 ≤ ratTrunc q := by
  unfold ratTrunc
  rw [if_neg (not_lt.mpr h)]
  exact Int.floor_nonneg.mpr h

/-- The retry flooring of the deny path: the returned duration is always
strictly positive. -/
lemma retryFloor_pos (x : ℚ) : 0 < (if x ≤ 0 then (1 : ℚ) else x) := by
  split_ifs with h
  · norm_num
  · exact lt_of_not_le h

lemma tokensAt_newLimiter (r : ℚ) (b : ℕ) (t : ℚ) :
    (newLimiter r b t).tokensAt t = (b : ℚ) :=
  tokensAt_eq_tokens _ _ rfl (le_refl _)

lemma runVerdicts_succ (s : RLState) (req : Request) (t : ℚ) (n : ℕ) :
    runVerdicts s req t (n + 1) =
      (checkStep s req t).2.allowed :: runVerdicts (checkStep s req t).1 req t n :=
  rfl

/-- The response record of a denied check. -/
lemma checkStep_snd_of_deny (s : RLState) (req : Request) (t : ℚ)
    (h : ((updateClient s.clients (getClientKey req) req.userID
        (resolveConfig s.configs req.method req.path) t).limiter.allow t).1 = false) :
    (checkStep s req t).2 =
      (let c := updateClient s.clients (getClientKey req) req.userID
          (resolveConfig s.configs req.method req.path) t
       let a := c.limiter.allow t
       let rl := a.2.reserve t
       let retry0 := rl.1.delayFrom t
       let retry := if retry0 ≤ 0 then 1 else retry0
       ⟨false, (resolveConfig s.configs req.method req.path).rate,
        (resolveConfig s.configs req.method req.path).burst, "0", some retry,
        some (ratTrunc retry), none, some 429⟩) := by
  unfold checkStep
  dsimp only
  rw [if_pos h]

lemma checkEvents_eq (s : RLState) (req : Request) (t : ℚ) :
    checkEvents s req t =
      if ((updateClient s.clients (getClientKey req) req.userID
          (resolveConfig s.configs req.method req.path) t).limiter.allow t).1 = false
      then [.lock, .allowOp, .reserveOp, .delayOp, .cancelOp, .unlock]
      else [.lock, .allowOp, .unlock, .reserveOp, .delayOp, .cancelOp] := rfl

lemma trimSuffixSlash_append_slash (p : String) :
    trimSuffixSlash (p ++ "/") = p := by
  have hd : (p ++ "/").data = p.data ++ ['/'] := by
    cases p
    rfl
  unfold trimSuffixSlash
  rw [hd, List.getLast?_concat, if_pos rfl, List.dropLast_concat]

lemma trimSuffixSlash_no_slash (p : String) (h : p.data.getLast? ≠ some '/') :
    trimSuffixSlash p = p := by
  unfold trimSuffixSlash
  rw [if_neg h]

/-- C4: policy resolution is a total pure function of method and path: the
literal scenarios of the spec hold (auth, admin, product_write, product_read,
public, default), and every input resolves to one of the six policies of the
static table — never to nothing. -/
theorem c4_policy_resolution_total :
    resolveConfig defaultConfigs "POST" "/api/v1/auth/login" = defaultConfigs "auth" ∧
    resolveConfig defaultConfigs "POST" "/api/v1/auth/register" = defaultConfigs "auth" ∧
    resolveConfig defaultConfigs "GET" "/api/v1/admin/users" = defaultConfigs "admin" ∧
    resolveConfig defaultConfigs "POST" "/api/v1/products" = defaultConfigs "product_write" ∧
    resolveConfig defaultConfigs "PUT" "/api/v1/products" = defaultConfigs "product_write" ∧
    resolveConfig defaultConfigs "DELETE" "/api/v1/products" = defaultConfigs "product_write" ∧
    resolveConfig defaultConfigs "GET" "/api/v1/products" = defaultConfigs "product_read" ∧
    (∀ m : String, resolveConfig defaultConfigs m "/api/v1/status" = defaultConfigs "public") ∧
    resolveConfig defaultConfigs "GET" "/api/v1/unknown/path" = defaultConfigs "default" ∧
    (∀ m p : String,
      resolveConfig defaultConfigs m p = defaultConfigs "auth" ∨
      resolveConfig defaultConfigs m p = defaultConfigs "admin" ∨
      resolveConfig defaultConfigs m p = defaultConfigs "public" ∨
      resolveConfig defaultConfigs m p = defaultConfigs "default" ∨
      resolveConfig defaultConfigs m p = defaultConfigs "product_write" ∨
      resolveConfig defaultConfigs m p = defaultConfigs "product_read") := by
  refine ⟨by with_unfolding_all decide, by with_unfolding_all decide,
    by with_unfolding_all decide, by with_unfolding_all decide,
    by with_unfolding_all decide, by with_unfolding_all decide,
    by with_unfolding_all decide, ?_, by with_unfolding_all decide,
    resolveConfig_cases⟩
  intro m
  unfold resolveConfig
  dsimp only
  rw [if_neg (by decide : ¬("/api/v1/status" = "/api/v1/products"))]
  with_unfolding_all decide

/-- C3 counterexample: full policy resolution is *not* invariant under a
trailing slash — a POST (or GET) to `/api/v1/products/` misses the
method-sensitive override, which compares the raw path, and resolves to the
`public` policy instead of `product_write` (resp. `product_read`). -/
theorem c3_trailing_slash_counterexample :
    resolveConfig defaultConfigs "POST" "/api/v1/products/" ≠
      resolveConfig defaultConfigs "POST" "/api/v1/products" ∧
    resolveConfig defaultConfigs "POST" "/api/v1/products/" ≠
      defaultConfigs "product_write" ∧
    resolveConfig defaultConfigs "GET" "/api/v1/products/" ≠
      defaultConfigs "product_read" := by
  refine ⟨?_, ?_, ?_⟩ <;> with_unfolding_all decide

/-- C3 amended: only the path-based table lookup (`getConfigForEndpoint`)
strips one trailing slash, so it is trailing-slash invariant for paths not
already ending in `/`; the method-sensitive product override matches the
exact path `/api/v1/products` only, and any method on `/api/v1/products/`
resolves to the `public` policy. -/
theorem c3_trailing_slash_amended :
    (∀ (configs : String → RateLimitConfig) (p : String),
      p.data.getLast? ≠ some '/' →
      getConfigForEndpoint configs (p ++ "/") = getConfigForEndpoint configs p) ∧
    resolveConfig defaultConfigs "POST" "/api/v1/products/" = defaultConfigs "public" ∧
    resolveConfig defaultConfigs "PUT" "/api/v1/products/" = defaultConfigs "public" ∧
    resolveConfig defaultConfigs "DELETE" "/api/v1/products/" = defaultConfigs "public" ∧
    resolveConfig defaultConfigs "GET" "/api/v1/products/" = defaultConfigs "public" := by
  refine ⟨?_, by with_unfolding_all decide, by with_unfolding_all decide,
    by with_unfolding_all decide, by with_unfolding_all decide⟩
  intro configs p h
  unfold getConfigForEndpoint
  rw [trimSuffixSlash_append_slash, trimSuffixSlash_no_slash p h]

/-- C3 witness: the amended invariance applied to the product collection
path. -/
theorem c3_trailing_slash_witness :
    ("/api/v1/products" : String).data.getLast? ≠ some '/' ∧
    getConfigForEndpoint defaultConfigs ("/api/v1/products" ++ "/") =
      getConfigForEndpoint defaultConfigs "/api/v1/products" :=
  ⟨by decide,
   c3_trailing_slash_amended.1 defaultConfigs "/api/v1/products" (by decide)⟩

/-- C8: clearing the registry then checking a key behaves exactly like the
first-ever check of that key on an empty registry; clear-all removes every
entry and leaves the policy table unchanged. -/
theorem c8_clear_all_reset (s : RLState) (req : Request) (t : ℚ) :
    checkStep (clearAllClients s) req t = checkStep ⟨[], s.configs⟩ req t ∧
    (clearAllClients s).clients = [] ∧
    (∀ k : String, lookupClient (clearAllClients s).clients k = none) ∧
    (clearAllClients s).configs = s.configs :=
  ⟨rfl, rfl, fun _ => rfl, rfl⟩

/-- C5: on a hit, a limiter whose rate or burst differs from the resolved
policy is replaced by a fresh limiter carrying the new rate/burst with a full
bucket, while a matching limiter is kept with its accumulated state; either
way `lastSeen` and `requestCount` are refreshed. -/
theorem c5_policy_mismatch_replace (cl : List (String × ClientInfo))
    (req : Request) (t : ℚ) (e : ClientInfo)
    (h : lookupClient cl (getClientKey req) = some e) :
    ((e.limiter.limit ≠ (resolveConfig defaultConfigs req.method req.path).rate ∨
        e.limiter.burst ≠ (resolveConfig defaultConfigs req.method req.path).burst) →
      updateClient cl (getClientKey req) req.userID
          (resolveConfig defaultConfigs req.method req.path) t =
        { e with
            limiter := newLimiter (resolveConfig defaultConfigs req.method req.path).rate
              (resolveConfig defaultConfigs req.method req.path).burst t,
            lastSeen := t, requestCount := e.requestCount + 1 } ∧
      (newLimiter (resolveConfig defaultConfigs req.method req.path).rate
          (resolveConfig defaultConfigs req.method req.path).burst t).tokens =
        ((resolveConfig defaultConfigs req.method req.path).burst : ℚ)) ∧
    ((e.limiter.limit = (resolveConfig defaultConfigs req.method req.path).rate ∧
        e.limiter.burst = (resolveConfig defaultConfigs req.method req.path).burst) →
      updateClient cl (getClientKey req) req.userID
          (resolveConfig defaultConfigs req.method req.path) t =
        { e with lastSeen := t, requestCount := e.requestCount + 1 }) := by
  constructor
  · intro hne
    exact ⟨updateClient_of_replace _ _ _ _ _ _ h hne, rfl⟩
  · intro hkeep
    exact updateClient_of_keep _ _ _ _ _ _ h hkeep.1 hkeep.2

/-- C5 witness: a stored limiter with rate 7 and burst 9 mismatches the
resolved `default` policy and is replaced by a fresh full limiter. -/
theorem c5_witness :
    lookupClient st5.clients (getClientKey req9) = some ⟨⟨7, 9, 3, 0, 0⟩, 0, "", 1⟩ ∧
    updateClient st5.clients (getClientKey req9) req9.userID
        (resolveConfig defaultConfigs req9.method req9.path) 2 =
      { limiter := newLimiter (resolveConfig defaultConfigs req9.method req9.path).rate
          (resolveConfig defaultConfigs req9.method req9.path).burst 2,
        lastSeen := 2, userID := "", requestCount := 1 + 1 } :=
  ⟨by with_unfolding_all decide,
   ((c5_policy_mismatch_replace st5.clients req9 2 ⟨⟨7, 9, 3, 0, 0⟩, 0, "", 1⟩
      (by with_unfolding_all decide)).1 (by with_unfolding_all decide)).1⟩

/-- C9 counterexample: on an allowed check the middleware touches the limiter
after releasing the registry lock — the reset-hint reservation, delay read
and cancellation all happen past the unlock. -/
theorem c9_lock_scope_counterexample :
    (checkStep newRateLimiter reqAuth 0).2.allowed = true ∧
    checkEvents newRateLimiter reqAuth 0 =
      [.lock, .allowOp, .unlock, .reserveOp, .delayOp, .cancelOp] ∧
    (checkEvents newRateLimiter reqAuth 0).take 3 = [.lock, .allowOp, .unlock] ∧
    (checkEvents newRateLimiter reqAuth 0).drop 3 = [.reserveOp, .delayOp, .cancelOp] := by
  refine ⟨?_, ?_, ?_, ?_⟩ <;> with_unfolding_all decide

/-- C9 amended: on a denied check every limiter operation happens between
lock and unlock; on an allowed check only the consume is inside the critical
section and the reset-hint reservation operations happen after the unlock. -/
theorem c9_lock_scope_amended (s : RLState) (req : Request) (t : ℚ) :
    ((checkStep s req t).2.allowed = false →
      checkEvents s req t = [.lock, .allowOp, .reserveOp, .delayOp, .cancelOp, .unlock]) ∧
    ((checkStep s req t).2.allowed = true →
      checkEvents s req t = [.lock, .allowOp, .unlock, .reserveOp, .delayOp, .cancelOp]) := by
  have hA := checkStep_allowed s req t
  constructor
  · intro h
    rw [hA] at h
    rw [checkEvents_eq, if_pos h]
  · intro h
    rw [hA] at h
    rw [checkEvents_eq, if_neg (by simp [h])]

/-- C9 witness: a denied check (exhausted bucket) keeps all limiter
operations inside the critical section. -/
theorem c9_lock_scope_witness :
    (checkStep st9 req9 0).2.allowed = false ∧
    checkEvents st9 req9 0 =
      [.lock, .allowOp, .reserveOp, .delayOp, .cancelOp, .unlock] :=
  ⟨by with_unfolding_all decide,
   (c9_lock_scope_amended st9 req9 0).1 (by with_unfolding_all decide)⟩

set_option maxRecDepth 4000 in
/-- C2 counterexample: a denied check whose next token is half a second away
returns a retry-after duration of 1/2 s (not floored up to one second), and
the numeric `retry_after` field of the 429 body truncates to 0. -/
theorem c2_retry_counterexample :
    (checkStep (runTrace newRateLimiter (List.replicate 20 (reqPW, 0))) reqPW (1/2)).2.allowed = false ∧
    (checkStep (runTrace newRateLimiter (List.replicate 20 (reqPW, 0))) reqPW (1/2)).2.retryAfter = some (1/2) ∧
    (checkStep (runTrace newRateLimiter (List.replicate 20 (reqPW, 0))) reqPW (1/2)).2.retryAfterField = some 0 := by
  refine ⟨?_, ?_, ?_⟩ <;> with_unfolding_all decide

/-- C2 amended: the deny path floors the retry hint to one second only when
the computed delay is zero or negative; the returned duration is always
strictly positive but may be below one second, and the numeric `retry_after`
field is its truncation — nonnegative but possibly 0. -/
theorem c2_retry_amended (cl : List (String × ClientInfo)) (req : Request) (t : ℚ)
    (hdeny : (checkStep ⟨cl, defaultConfigs⟩ req t).2.allowed = false) :
    ∃ d : ℚ, (checkStep ⟨cl, defaultConfigs⟩ req t).2.retryAfter = some d ∧ 0 < d ∧
      (checkStep ⟨cl, defaultConfigs⟩ req t).2.retryAfterField = some (ratTrunc d) ∧
      0 ≤ ratTrunc d := by
  rw [checkStep_allowed] at hdeny
  rw [checkStep_snd_of_deny _ _ _ hdeny]
  dsimp only
  exact ⟨_, rfl, retryFloor_pos _, rfl, ratTrunc_nonneg _ (le_of_lt (retryFloor_pos _))⟩

/-- C2 witness: the amended statement at a concrete denied check. -/
theorem c2_retry_witness :
    (checkStep ⟨st9.clients, defaultConfigs⟩ req9 0).2.allowed = false ∧
    ∃ d : ℚ, (checkStep ⟨st9.clients, defaultConfigs⟩ req9 0).2.retryAfter = some d ∧
      0 < d ∧
      (checkStep ⟨st9.clients, defaultConfigs⟩ req9 0).2.retryAfterField = some (ratTrunc d) ∧
      0 ≤ ratTrunc d :=
  ⟨by with_unfolding_all decide,
   c2_retry_amended st9.clients req9 0 (by with_unfolding_all decide)⟩

/-- C6: one admission check consumes exactly one token from the client's
(post-refresh) bucket when it allows and none when it denies — the failed
consume and the immediately cancelled hint reservation leave the available
tokens unchanged, and rate/burst are untouched. -/
theorem c6_token_accounting (cl : List (String × ClientInfo)) (req : Request) (t : ℚ) :
    ∃ e' : ClientInfo,
      lookupClient (checkStep ⟨cl, defaultConfigs⟩ req t).1.clients (getClientKey req) = some e' ∧
      e'.limiter.limit = (updateClient cl (getClientKey req) req.userID
        (resolveConfig defaultConfigs req.method req.path) t).limiter.limit ∧
      e'.limiter.burst = (updateClient cl (getClientKey req) req.userID
        (resolveConfig defaultConfigs req.method req.path) t).limiter.burst ∧
      e'.limiter.tokensAt t = (updateClient cl (getClientKey req) req.userID
          (resolveConfig defaultConfigs req.method req.path) t).limiter.tokensAt t -
        (if (checkStep ⟨cl, defaultConfigs⟩ req t).2.allowed then (1 : ℚ) else 0) := by
  have hlb := updateClient_limit_burst cl (getClientKey req) req.userID
    (resolveConfig defaultConfigs req.method req.path) t
  have hpos : 0 < (updateClient cl (getClientKey req) req.userID
      (resolveConfig defaultConfigs req.method req.path) t).limiter.limit := by
    rw [hlb.1]
    exact resolveConfig_rate_pos req.method req.path
  have hAC := afterCheck_spec (updateClient cl (getClientKey req) req.userID
    (resolveConfig defaultConfigs req.method req.path) t).limiter t hpos
  have hif : (if (checkStep ⟨cl, defaultConfigs⟩ req t).2.allowed then (1 : ℚ) else 0) =
      (if 1 ≤ (updateClient cl (getClientKey req) req.userID
        (resolveConfig defaultConfigs req.method req.path) t).limiter.tokensAt t
       then (1 : ℚ) else 0) := by
    rw [checkStep_allowed]
    dsimp only
    rw [allow_fst]
    simp only [decide_eq_true_eq]
  refine ⟨{ updateClient cl (getClientKey req) req.userID
      (resolveConfig defaultConfigs req.method req.path) t with
      limiter := afterCheck (updateClient cl (getClientKey req) req.userID
        (resolveConfig defaultConfigs req.method req.path) t).limiter t }, ?_, ?_, ?_, ?_⟩
  · rw [checkStep_fst]
    dsimp only
    exact lookupClient_set_self _ _ _
  · exact hAC.1
  · exact hAC.2.1
  · rw [hif]
    exact hAC.2.2

/-- One check on a client whose limiter already matches the resolved policy:
the verdict is "a token was available", and the registry rebinds the key to
the bookkept entry with the post-check limiter. -/
lemma checkStep_keep_next (cl : List (String × ClientInfo)) (req : Request)
    (t : ℚ) (e : ClientInfo)
    (hl : lookupClient cl (getClientKey req) = some e)
    (hr : e.limiter.limit = (resolveConfig defaultConfigs req.method req.path).rate)
    (hb : e.limiter.burst = (resolveConfig defaultConfigs req.method req.path).burst) :
    (checkStep ⟨cl, defaultConfigs⟩ req t).2.allowed = decide (1 ≤ e.limiter.tokensAt t) ∧
    (checkStep ⟨cl, defaultConfigs⟩ req t).1 =
      ⟨setClient cl (getClientKey req)
        { e with limiter := afterCheck e.limiter t, lastSeen := t,
                 requestCount := e.requestCount + 1 },
       defaultConfigs⟩ := by
  have hcup : updateClient cl (getClientKey req) req.userID
      (resolveConfig defaultConfigs req.method req.path) t =
      { e with lastSeen := t, requestCount := e.requestCount + 1 } :=
    updateClient_of_keep _ _ _ _ _ _ hl hr hb
  constructor
  · rw [checkStep_allowed]
    dsimp only
    rw [hcup, allow_fst]
  · rw [checkStep_fst]
    dsimp only
    rw [hcup]

/-- With an entry holding exactly `i` available tokens at instant `t`,
`i + 1` further same-instant checks allow `i` times and then deny. -/
lemma runVerdicts_drain (req : Request) (t : ℚ) :
    ∀ (i : ℕ) (cl : List (String × ClientInfo)) (e : ClientInfo),
      lookupClient cl (getClientKey req) = some e →
      e.limiter.limit = (resolveConfig defaultConfigs req.method req.path).rate →
      e.limiter.burst = (resolveConfig defaultConfigs req.method req.path).burst →
      e.limiter.tokensAt t = (i : ℚ) →
      runVerdicts ⟨cl, defaultConfigs⟩ req t (i + 1) =
        List.replicate i true ++ [false] := by
  intro i
  induction i with
  | zero =>
      intro cl e hl hr hb htok
      have hkn := checkStep_keep_next cl req t e hl hr hb
      have hno : ¬(1 : ℚ) ≤ e.limiter.tokensAt t := by
        rw [htok]
        norm_num
      rw [runVerdicts_succ, hkn.1, decide_eq_false hno]
      rfl
  | succ k ih =>
      intro cl e hl hr hb htok
      have hkn := checkStep_keep_next cl req t e hl hr hb
      have hone : (1 : ℚ) ≤ e.limiter.tokensAt t := by
        rw [htok]
        exact_mod_cast Nat.succ_le_succ (Nat.zero_le k)
      have hpos : 0 < e.limiter.limit := by
        rw [hr]
        exact resolveConfig_rate_pos _ _
      have hAC := afterCheck_spec e.limiter t hpos
      rw [runVerdicts_succ, hkn.1, decide_eq_true hone, hkn.2]
      have happ := ih
        (setClient cl (getClientKey req)
          { e with limiter := afterCheck e.limiter t, lastSeen := t,
                   requestCount := e.requestCount + 1 })
        { e with limiter := afterCheck e.limiter t, lastSeen := t,
                 requestCount := e.requestCount + 1 }
        (lookupClient_set_self _ _ _) (hAC.1.trans hr) (hAC.2.1.trans hb)
        (by
          show (afterCheck e.limiter t).tokensAt t = (k : ℚ)
          rw [hAC.2.2, if_pos hone, htok]
          push_cast
          ring)
      rw [happ]
      simp [List.replicate_succ]

/-- C1: for a key not yet in the registry, with `B` the resolved policy's
burst, `B + 1` same-instant admission checks allow exactly the first `B` and
deny the last. -/
theorem c1_burst_exhaustion (cl : List (String × ClientInfo)) (req : Request)
    (t : ℚ) (h : lookupClient cl (getClientKey req) = none) :
    runVerdicts ⟨cl, defaultConfigs⟩ req t
        ((resolveConfig defaultConfigs req.method req.path).burst + 1) =
      List.replicate (resolveConfig defaultConfigs req.method req.path).burst true
        ++ [false] := by
  obtain ⟨B, hB⟩ :
      ∃ B, (resolveConfig defaultConfigs req.method req.path).burst = B + 1 :=
    ⟨(resolveConfig defaultConfigs req.method req.path).burst - 1, by
      have := resolveConfig_burst_pos req.method req.path
      omega⟩
  have hcup : updateClient cl (getClientKey req) req.userID
      (resolveConfig defaultConfigs req.method req.path) t =
      ⟨newLimiter (resolveConfig defaultConfigs req.method req.path).rate
        (resolveConfig defaultConfigs req.method req.path).burst t, t, req.userID, 1⟩ :=
    updateClient_of_none _ _ _ _ _ h
  have hhead : (checkStep ⟨cl, defaultConfigs⟩ req t).2.allowed = true := by
    rw [checkStep_allowed]
    dsimp only
    rw [hcup]
    dsimp only
    rw [allow_fst, tokensAt_newLimiter, hB]
    exact decide_eq_true (by push_cast; linarith)
  have hstate : (checkStep ⟨cl, defaultConfigs⟩ req t).1 =
      ⟨setClient cl (getClientKey req)
        { limiter := afterCheck (newLimiter
            (resolveConfig defaultConfigs req.method req.path).rate
            (resolveConfig defaultConfigs req.method req.path).burst t) t,
          lastSeen := t, userID := req.userID, requestCount := 1 },
       defaultConfigs⟩ := by
    rw [checkStep_fst]
    dsimp only
    rw [hcup]
  have hAC := afterCheck_spec (newLimiter
    (resolveConfig defaultConfigs req.method req.path).rate
    (resolveConfig defaultConfigs req.method req.path).burst t) t
    (resolveConfig_rate_pos req.method req.path)
  rw [runVerdicts_succ, hhead, hstate]
  set E : ClientInfo :=
    { limiter := afterCheck (newLimiter
        (resolveConfig defaultConfigs req.method req.path).rate
        (resolveConfig defaultConfigs req.method req.path).burst t) t,
      lastSeen := t, userID := req.userID, requestCount := 1 } with hE
  have hdrain := runVerdicts_drain req t B
    (setClient cl (getClientKey req) E) E
    (lookupClient_set_self _ _ _) hAC.1 hAC.2.1
    (by
      show (afterCheck (newLimiter
        (resolveConfig defaultConfigs req.method req.path).rate
        (resolveConfig defaultConfigs req.method req.path).burst t) t).tokensAt t = (B : ℚ)
      rw [hAC.2.2, tokensAt_newLimiter, hB]
      rw [if_pos (by push_cast; linarith)]
      push_cast
      ring)
  have hcount : runVerdicts ⟨setClient cl (getClientKey req) E, defaultConfigs⟩ req t
      (resolveConfig defaultConfigs req.method req.path).burst =
      runVerdicts ⟨setClient cl (getClientKey req) E, defaultConfigs⟩ req t (B + 1) := by
    rw [hB]
  rw [hcount, hdrain, hB]
  simp [List.replicate_succ]

/-- C1 witness: the first six checks of a fresh client against the `auth`
policy (burst 5) allow five times then deny. -/
theorem c1_witness :
    lookupClient ([] : List (String × ClientInfo)) (getClientKey reqAuth) = none ∧
    runVerdicts ⟨[], defaultConfigs⟩ reqAuth 0
        ((resolveConfig defaultConfigs reqAuth.method reqAuth.path).burst + 1) =
      List.replicate (resolveConfig defaultConfigs reqAuth.method reqAuth.path).burst true
        ++ [false] :=
  ⟨rfl, c1_burst_exhaustion [] reqAuth 0 rfl⟩

lemma runTrace_cons (s : RLState) (req : Request) (t : ℚ)
    (rest : List (Request × ℚ)) :
    runTrace s ((req, t) :: rest) = runTrace (checkStep s req t).1 rest := rfl

/-- After a check the client key is bound to the refreshed entry. -/
lemma checkStep_entry (s : RLState) (req : Request) (t : ℚ) :
    lookupClient (checkStep s req t).1.clients (getClientKey req) =
      some { updateClient s.clients (getClientKey req) req.userID
          (resolveConfig s.configs req.method req.path) t with
        limiter := afterCheck (updateClient s.clients (getClientKey req) req.userID
          (resolveConfig s.configs req.method req.path) t).limiter t } := by
  rw [checkStep_fst]
  exact lookupClient_set_self _ _ _

/-- A check leaves every other key's entry untouched. -/
lemma checkStep_other (s : RLState) (req : Request) (t : ℚ) (k : String)
    (hk : k ≠ getClientKey req) :
    lookupClient (checkStep s req t).1.clients k = lookupClient s.clients k := by
  rw [checkStep_fst]
  exact lookupClient_set_ne _ _ _ _ hk

lemma checkStep_cfg (s : RLState) (req : Request) (t : ℚ) :
    (checkStep s req t).1.configs = s.configs := by
  rw [checkStep_fst]

lemma checkStep_len (s : RLState) (req : Request) (t : ℚ) :
    (checkStep s req t).1.clients.length =
      s.clients.length +
        (if (lookupClient s.clients (getClientKey req)).isSome = true then 0 else 1) := by
  rw [checkStep_fst]
  dsimp only
  by_cases h : (lookupClient s.clients (getClientKey req)).isSome = true
  · rw [if_pos h, setClient_length_of_some _ _ _ h, add_zero]
  · rw [if_neg h, setClient_length_of_none]
    exact Option.not_isSome_iff_eq_none.mp (by simpa using h)

/-- The running registry invariant behind `GetStats`: after processing
`pre ++ tr` from a state correct for `pre`, the registry's keys are exactly
the distinct client keys seen, its size is their number, and every entry's
`requestCount` is the number of checks made for its key. -/
lemma runTrace_inv (tr : List (Request × ℚ)) :
    ∀ (pre : List (Request × ℚ)) (s : RLState),
      (∀ k : String, (lookupClient s.clients k).isSome = true ↔
        k ∈ pre.map fun p => getClientKey p.1) →
      s.clients.length = (pre.map fun p => getClientKey p.1).toFinset.card →
      (∀ (k : String) (e : ClientInfo), lookupClient s.clients k = some e →
        e.requestCount = ((pre.filter fun p => getClientKey p.1 == k).length : ℤ)) →
      ((∀ k : String, (lookupClient (runTrace s tr).clients k).isSome = true ↔
         k ∈ (pre ++ tr).map fun p => getClientKey p.1) ∧
       (runTrace s tr).clients.length =
         ((pre ++ tr).map fun p => getClientKey p.1).toFinset.card ∧
       (∀ (k : String) (e : ClientInfo), lookupClient (runTrace s tr).clients k = some e →
         e.requestCount = (((pre ++ tr).filter fun p => getClientKey p.1 == k).length : ℤ))) := by
  induction tr with
  | nil =>
      intro pre s h1 h2 h3
      rw [List.append_nil]
      exact ⟨h1, h2, h3⟩
  | cons p rest ih =>
      intro pre s h1 h2 h3
      obtain ⟨req, t⟩ := p
      have inv1 : ∀ k : String,
          (lookupClient (checkStep s req t).1.clients k).isSome = true ↔
          k ∈ (pre ++ [(req, t)]).map fun p => getClientKey p.1 := by
        intro k
        rw [List.map_append]
        by_cases hk : k = getClientKey req
        · subst hk
          rw [checkStep_entry]
          simp
        · rw [checkStep_other s req t k hk, h1 k]
          simp [hk]
      have inv2 : (checkStep s req t).1.clients.length =
          ((pre ++ [(req, t)]).map fun p => getClientKey p.1).toFinset.card := by
        rw [checkStep_len, List.map_append, List.toFinset_append]
        by_cases h : (lookupClient s.clients (getClientKey req)).isSome = true
        · have hmem : getClientKey req ∈ pre.map fun p => getClientKey p.1 := (h1 _).mp h
          rw [if_pos h, h2, add_zero]
          have hsub : (([(req, t)].map fun p => getClientKey p.1).toFinset : Finset String) ⊆
              (pre.map fun p => getClientKey p.1).toFinset := by
            simp [Finset.singleton_subset_iff, List.mem_toFinset, hmem]
          rw [Finset.union_eq_left.mpr hsub]
        · have hmem : ¬ getClientKey req ∈ pre.map fun p => getClientKey p.1 :=
            fun hm => h ((h1 _).mpr hm)
          rw [if_neg h, h2]
          have hrw : ((pre.map fun p => getClientKey p.1).toFinset ∪
              ([(req, t)].map fun p => getClientKey p.1).toFinset : Finset String) =
              insert (getClientKey req) (pre.map fun p => getClientKey p.1).toFinset := by
            simp [Finset.union_comm, Finset.insert_eq]
          rw [hrw, Finset.card_insert_of_not_mem (by simpa [List.mem_toFinset] using hmem)]
      have inv3 : ∀ (k : String) (e : ClientInfo),
          lookupClient (checkStep s req t).1.clients k = some e →
          e.requestCount =
            (((pre ++ [(req, t)]).filter fun p => getClientKey p.1 == k).length : ℤ) := by
        intro k e hl
        rw [List.filter_append]
        by_cases hk : k = getClientKey req
        · subst hk
          rw [checkStep_entry] at hl
          injection hl with he
          subst he
          show (updateClient s.clients (getClientKey req) req.userID
            (resolveConfig s.configs req.method req.path) t).requestCount = _
          rw [updateClient_requestCount]
          have hfilx : [(req, t)].filter (fun p => getClientKey p.1 == getClientKey req) =
              [(req, t)] := by
            simp [List.filter]
          rw [hfilx]
          cases hlk : lookupClient s.clients (getClientKey req) with
          | none =>
              have hfil : pre.filter (fun p => getClientKey p.1 == getClientKey req) = [] := by
                rw [List.filter_eq_nil_iff]
                intro a ha hbeq
                have heqk : getClientKey a.1 = getClientKey req := by simpa using hbeq
                have : getClientKey req ∈ pre.map fun p => getClientKey p.1 := by
                  rw [← heqk]
                  exact List.mem_map_of_mem _ ha
                have := (h1 _).mpr this
                rw [hlk] at this
                simp at this
              rw [hfil]
              simp
          | some e₀ =>
              dsimp only
              rw [h3 (getClientKey req) e₀ hlk]
              simp [List.length_append]
        · rw [checkStep_other s req t k hk] at hl
          have hfilx : [(req, t)].filter (fun p => getClientKey p.1 == k) = [] := by
            have hb : (getClientKey req == k) = false :=
              beq_eq_false_iff_ne.mpr (Ne.symm hk)
            simp [List.filter, hb]
          rw [hfilx, h3 k e hl]
          simp
      have hres := ih (pre ++ [(req, t)]) (checkStep s req t).1 inv1 inv2 inv3
      rw [runTrace_cons]
      rw [List.append_cons pre (req, t) rest]
      exact hres

/-- C7: after any admission check (allowed or denied) the client's entry has
`lastSeen` equal to the check's timestamp and `requestCount` one more than
before; consequently, over any trace from a fresh limiter, `GetStats` reports
as many clients as distinct keys were checked, and each entry's
`requestCount` equals the number of checks for its key. -/
theorem c7_bookkeeping_stats :
    (∀ (s : RLState) (req : Request) (t : ℚ),
      ∃ e' : ClientInfo,
        lookupClient (checkStep s req t).1.clients (getClientKey req) = some e' ∧
        e'.lastSeen = t ∧
        e'.requestCount =
          (match lookupClient s.clients (getClientKey req) with
           | none => 0
           | some e => e.requestCount) + 1) ∧
    (∀ tr : List (Request × ℚ),
      (getStats (runTrace newRateLimiter tr)).1 =
        ((tr.map fun p => getClientKey p.1).toFinset.card) ∧
      (∀ (k : String) (e : ClientInfo),
        lookupClient (runTrace newRateLimiter tr).clients k = some e →
        e.requestCount = ((tr.filter fun p => getClientKey p.1 == k).length : ℤ))) := by
  constructor
  · intro s req t
    refine ⟨{ updateClient s.clients (getClientKey req) req.userID
        (resolveConfig s.configs req.method req.path) t with
        limiter := afterCheck (updateClient s.clients (getClientKey req) req.userID
          (resolveConfig s.configs req.method req.path) t).limiter t },
      checkStep_entry s req t, ?_, ?_⟩
    · exact updateClient_lastSeen s.clients (getClientKey req) req.userID
        (resolveConfig s.configs req.method req.path) t
    · exact updateClient_requestCount s.clients (getClientKey req) req.userID
        (resolveConfig s.configs req.method req.path) t
  · intro tr
    have hbase1 : ∀ k : String,
        (lookupClient newRateLimiter.clients k).isSome = true ↔
        k ∈ ([] : List (Request × ℚ)).map fun p => getClientKey p.1 := by
      intro k
      simp [newRateLimiter, lookupClient]
    have hbase2 : newRateLimiter.clients.length =
        (([] : List (Request × ℚ)).map fun p => getClientKey p.1).toFinset.card := by
      simp [newRateLimiter]
    have hbase3 : ∀ (k : String) (e : ClientInfo),
        lookupClient newRateLimiter.clients k = some e →
        e.requestCount =
          ((([] : List (Request × ℚ)).filter fun p => getClientKey p.1 == k).length : ℤ) := by
      intro k e h
      simp [newRateLimiter, lookupClient] at h
    have h := runTrace_inv tr [] newRateLimiter hbase1 hbase2 hbase3
    rw [List.nil_append] at h
    exact ⟨h.2.1, h.2.2⟩

/-- C7 witness: one check by a fresh client yields one client in the stats
with `requestCount` equal to the one check made for its key. -/
theorem c7_witness :
    lookupClient (runTrace newRateLimiter [(reqAuth, 0)]).clients "1.2.3.4" =
      some ⟨⟨1/20, 5, 4, 0, 0⟩, 0, "", 1⟩ ∧
    (⟨⟨1/20, 5, 4, 0, 0⟩, 0, "", 1⟩ : ClientInfo).requestCount =
      ((([(reqAuth, 0)]).filter fun p => getClientKey p.1 == "1.2.3.4").length : ℤ) :=
  ⟨by with_unfolding_all decide,
   (c7_bookkeeping_stats.2 [(reqAuth, 0)]).2 "1.2.3.4" ⟨⟨1/20, 5, 4, 0, 0⟩, 0, "", 1⟩
     (by with_unfolding_all decide)⟩

lemma data_append (a b : String) : (a ++ b).data = a.data ++ b.data := by
  cases a
  cases b
  rfl

/-- A key derived from a user id contains a colon. -/
lemma colon_mem_key (ip uid : String) :
    ':' ∈ (ip ++ ":" ++ uid).data := by
  rw [data_append, data_append]
  refine List.mem_append_left _ (List.mem_append_right _ ?_)
  show ':' ∈ (":" : String).data
  decide

/-- A key derived from a nonempty user id differs from the bare IP. -/
lemma key_ne_ip (ip uid : String) (h : uid ≠ "") : ip ++ ":" ++ uid ≠ ip := by
  intro heq
  have hlen := congrArg String.length heq
  rw [String.length_append, String.length_append] at hlen
  have huid : 0 < uid.length := by
    cases uid with
    | mk d =>
        cases d with
        | nil => exact absurd rfl h
        | cons c cs => simp [String.length]
  have hcolon : ((":" : String).length) = 1 := rfl
  omega

/-- Along any trace, an entry whose stored identity is nonempty sits at a key
containing a colon (it was keyed as `IP:UserID`). -/
lemma runTrace_userID_inv (tr : List (Request × ℚ)) :
    ∀ s : RLState,
      (∀ (k : String) (e : ClientInfo), lookupClient s.clients k = some e →
        e.userID ≠ "" → ':' ∈ k.data) →
      ∀ (k : String) (e : ClientInfo),
        lookupClient (runTrace s tr).clients k = some e →
        e.userID ≠ "" → ':' ∈ k.data := by
  induction tr with
  | nil => intro s hinv; exact hinv
  | cons p rest ih =>
      intro s hinv
      obtain ⟨req, t⟩ := p
      rw [runTrace_cons]
      apply ih
      intro k e hl hne
      by_cases hk : k = getClientKey req
      · subst hk
        rw [checkStep_entry] at hl
        injection hl with he
        subst he
        have huid : (updateClient s.clients (getClientKey req) req.userID
            (resolveConfig s.configs req.method req.path) t).userID ≠ "" := hne
        rw [updateClient_userID] at huid
        cases hlk : lookupClient s.clients (getClientKey req) with
        | none =>
            rw [hlk] at huid
            dsimp only at huid
            unfold getClientKey
            rw [if_pos huid]
            exact colon_mem_key _ _
        | some e₀ =>
            rw [hlk] at huid
            dsimp only at huid
            exact hinv (getClientKey req) e₀ hlk huid
      · rw [checkStep_other s req t k hk] at hl
        exact hinv k e hl hne

/-- C10: a registry entry's stored identity is assigned exactly once, at
creation, and never modified by later checks; a request with a nonempty user
id uses the key `IP:UserID`, distinct from the bare IP, so an entry at a
colon-free (bare IPv4) key always carries the empty identity. -/
theorem c10_identity_frame :
    (∀ (s : RLState) (req : Request) (t : ℚ) (k : String) (e e' : ClientInfo),
      lookupClient s.clients k = some e →
      lookupClient (checkStep s req t).1.clients k = some e' →
      e'.userID = e.userID) ∧
    (∀ (s : RLState) (req : Request) (t : ℚ),
      lookupClient s.clients (getClientKey req) = none →
      ∃ e' : ClientInfo,
        lookupClient (checkStep s req t).1.clients (getClientKey req) = some e' ∧
        e'.userID = req.userID) ∧
    (∀ ip uid : String, uid ≠ "" → ip ++ ":" ++ uid ≠ ip) ∧
    (∀ (tr : List (Request × ℚ)) (k : String) (e : ClientInfo),
      lookupClient (runTrace newRateLimiter tr).clients k = some e →
      ¬(':' ∈ k.data) → e.userID = "") := by
  refine ⟨?_, ?_, key_ne_ip, ?_⟩
  · intro s req t k e e' he he'
    by_cases hk : k = getClientKey req
    · subst hk
      rw [checkStep_entry] at he'
      injection he' with h
      subst h
      show (updateClient s.clients (getClientKey req) req.userID
        (resolveConfig s.configs req.method req.path) t).userID = e.userID
      rw [updateClient_userID, he]
    · rw [checkStep_other s req t k hk] at he'
      rw [he] at he'
      injection he' with h
      rw [h]
  · intro s req t h
    refine ⟨_, checkStep_entry s req t, ?_⟩
    show (updateClient s.clients (getClientKey req) req.userID
      (resolveConfig s.configs req.method req.path) t).userID = req.userID
    rw [updateClient_userID, h]
  · intro tr k e hl hcol
    by_cases hu : e.userID = ""
    · exact hu
    · exact absurd (runTrace_userID_inv tr newRateLimiter
        (by
          intro k' e' h'
          simp [newRateLimiter, lookupClient] at h') k e hl hu) hcol

/-- C10 witness: after one anonymous check, the entry at the bare IPv4 key
carries the empty identity. -/
theorem c10_witness :
    lookupClient (runTrace newRateLimiter [(reqAuth, 0)]).clients "1.2.3.4" =
      some ⟨⟨1/20, 5, 4, 0, 0⟩, 0, "", 1⟩ ∧
    ¬(':' ∈ ("1.2.3.4" : String).data) ∧
    (⟨⟨1/20, 5, 4, 0, 0⟩, 0, "", 1⟩ : ClientInfo).userID = "" :=
  ⟨by with_unfolding_all decide, by decide,
   c10_identity_frame.2.2.2 [(reqAuth, 0)] "1.2.3.4" ⟨⟨1/20, 5, 4, 0, 0⟩, 0, "", 1⟩
     (by with_unfolding_all decide) (by decide)⟩

end RateLimit

